import Mathlib

/-!
Verification of `src/libslic3r/Support/OrganicSupport.cpp` (organic tree
support generation).  The development shallowly embeds the branch extractor
(`organic_draw_branches`, traversal part), the collision-avoidance sphere
solver (`organic_smooth_branches_avoid_collisions`), the root bottom
propagation loop and the strip triangulation (`triangulate_strip`), and
proves the behavioural properties claimed in the specification.

External collaborators (the AABB-tree line query, the 2D polygon boolean
library, the slicing parameter queries and the cancellation probe) enter
the embedding as function parameters, mirroring the narrow interfaces the
source consumes.
-/

/-! ## Branch extractor model (lines 644-755)

Discrete model of a `SupportElement` as consumed by the traversal: the
parent indices into the layer above and the `lost` / `verylost` state
flags.  Elements are addressed by `(layer, index)` pairs. -/

/-- Support element state used by the branch extractor. -/
structure SupportElementA where
  parents : List Nat
  lost : Bool
  verylost : Bool
deriving DecidableEq, Inhabited

/-- Layered forest of support elements (`move_bounds`). -/
abbrev ForestA := List (List SupportElementA)

/-- Element lookup `move_bounds[layer][idx]`.  Out-of-range reads give a
default empty element; the source only dereferences valid references. -/
def getEA (mb : ForestA) (r : Nat × Nat) : SupportElementA :=
  (mb.getD r.1 []).getD r.2 default

/-- Branch produced by the extractor (lines 652-656): a path of element
references plus the `has_root` / `has_tip` flags. -/
structure BranchA where
  path : List (Nat × Nat)
  has_root : Bool
  has_tip : Bool
deriving DecidableEq

/-- Walk up a single-parent chain (the `for (SupportElement *parent = ...)`
loop, lines 694-710).  Returns the path tail appended beyond the first
parent, the refs newly marked along the chain, and the next split point if
the walk ended at a bifurcation (`parents.size() > 1`) rather than at a tip
(`parents.size() == 0`).  `fuel` bounds the walk; the source terminates
because the layer index strictly increases at each step. -/
def chainWalk (mb : ForestA) : Nat → Nat × Nat → List (Nat × Nat) × List (Nat × Nat) × Option (Nat × Nat)
  | 0, _ => ([], [], none)
  | fuel+1, cur =>
    let np : Nat × Nat := (cur.1 + 1, (getEA mb cur).parents.headD 0)
    if 1 < (getEA mb np).parents.length then
      ([np], [], some np)
    else if (getEA mb np).parents.length = 0 then
      ([np], [np], none)
    else
      let rest := chainWalk mb fuel np
      (np :: rest.1, np :: rest.2.1, rest.2.2)

/-- Loop of `visit_recursive` over the split point's parents
(lines 682-721).  `root` is the value of `out.branches.empty()` captured
once at the entry of `visit_recursive`, before the loop; every branch
emitted by this loop receives `has_root = root`.  `recurse` stands for the
recursive `visit_recursive` call on the next split point.  State threaded:
the accumulated branch list (`out.branches`) and the marked refs. -/
def visitLoop (mb : ForestA) (cf : Nat) (s : Nat × Nat) (root : Bool)
    (recurse : Nat × Nat → List BranchA → List (Nat × Nat) → List BranchA × List (Nat × Nat)) :
    List Nat → List BranchA → List (Nat × Nat) → List BranchA × List (Nat × Nat)
  | [], acc, marks => (acc, marks)
  | pidx :: rest, acc, marks =>
    let fp : Nat × Nat := (s.1 + 1, pidx)
    let fpn := (getEA mb fp).parents.length
    let marks1 := if fpn < 2 then fp :: marks else marks
    let walk : List (Nat × Nat) × List (Nat × Nat) × Option (Nat × Nat) :=
      if fpn = 1 then chainWalk mb cf fp
      else if 1 < fpn then ([], [], some fp)
      else ([], [], none)
    let branch : BranchA := ⟨s :: fp :: walk.1, root, walk.2.2.isNone⟩
    let acc1 := acc ++ [branch]
    let marks2 := walk.2.1 ++ marks1
    match walk.2.2 with
    | none => visitLoop mb cf s root recurse rest acc1 marks2
    | some nb =>
      let r := recurse nb acc1 marks2
      visitLoop mb cf s root recurse rest r.1 r.2

/-- `TreeVisitor::visit_recursive` (lines 674-722): mark the start element,
capture `root := out.branches.empty()`, then walk each parent branch.
`fuel` bounds the recursion depth (the source recursion terminates because
split points move to strictly higher layers); `cf` bounds the single-parent
chain walks. -/
def visitNode (mb : ForestA) (cf : Nat) : Nat → Nat × Nat → List BranchA → List (Nat × Nat) → List BranchA × List (Nat × Nat)
  | 0, _, acc, marks => (acc, marks)
  | fuel+1, s, acc, marks =>
    visitLoop mb cf s acc.isEmpty (visitNode mb cf fuel) (getEA mb s).parents acc (s :: marks)

/-- State of the extraction loop over start elements: the marked refs, the
kept trees (`trees`, after the conditional `pop_back`), and — model
instrumentation only — every built tree together with its start element. -/
structure ExtractStateA where
  marks : List (Nat × Nat)
  trees : List (List BranchA)
  built : List ((Nat × Nat) × List BranchA)
deriving DecidableEq

/-- Body of the extraction loop (lines 727-754): an unmarked element with
non-empty parents starts a tree; a fresh tree is pushed, filled by
`visit_recursive`, and kept only when the start element is `lost` or
`verylost` (otherwise `trees.pop_back()`, line 750). -/
def extractStep (mb : ForestA) (cf fuel : Nat) (st : ExtractStateA) (r : Nat × Nat) : ExtractStateA :=
  let e := getEA mb r
  if ¬ st.marks.contains r ∧ e.parents ≠ [] then
    let v := visitNode mb cf fuel r [] st.marks
    let trees1 := st.trees ++ [v.1]
    { marks := v.2
      trees := if e.lost || e.verylost then trees1 else trees1.dropLast
      built := st.built ++ [(r, v.1)] }
  else st

/-- Double loop of the extractor over layers `[0, last-1)` and the elements
of each layer (lines 725-755). -/
def extractAll (mb : ForestA) (cf fuel : Nat) : ExtractStateA :=
  (List.range (mb.length - 1)).foldl
    (fun st li =>
      (List.range (mb.getD li []).length).foldl
        (fun st2 ei => extractStep mb cf fuel st2 (li, ei)) st)
    ⟨[], [], []⟩

/-- Acceptance gate of a built tree (lines 746-750): the start element is
`lost` or `verylost`. -/
def keptFlag (mb : ForestA) (p : (Nat × Nat) × List BranchA) : Bool :=
  (getEA mb p.1).lost || (getEA mb p.1).verylost

/-- Scenario S3 of the specification: layer 0 holds one element with two
parents, layer 1 holds two parentless elements (a Y-bifurcation at the
root). -/
def mbS3 : ForestA :=
  [[⟨[0, 1], false, false⟩], [⟨[], false, false⟩, ⟨[], false, false⟩]]

/-! ## Theorems for the branch extractor -/

theorem chainWalk_layer_lt (mb : ForestA) :
    ∀ fuel cur r, (chainWalk mb fuel cur).2.2 = some r → cur.1 < r.1 := by
  intro fuel
  induction fuel with
  | zero => intro cur r h; simp [chainWalk] at h
  | succ n ih =>
    intro cur r h
    rw [chainWalk] at h
    split at h
    · simp at h
      subst h
      exact Nat.lt_succ_self _
    · split at h
      · simp at h
      · simp at h
        have h2 : cur.1 + 1 < r.1 := ih _ _ h
        omega

theorem visitLoop_spec (mb : ForestA) (cf : Nat) (s : Nat × Nat) (root : Bool)
    (recurse : Nat × Nat → List BranchA → List (Nat × Nat) → List BranchA × List (Nat × Nat))
    (hrec : ∀ r acc marks, s.1 < r.1 → acc ≠ [] →
      ∃ new marks', recurse r acc marks = (acc ++ new, marks') ∧
        ∀ b ∈ new, (∃ q, b.path.head? = some q ∧ s.1 < q.1) ∧ b.has_root = false) :
    ∀ ps acc marks, ∃ new marks',
      visitLoop mb cf s root recurse ps acc marks = (acc ++ new, marks') ∧
      ∀ b ∈ new, (b.path.head? = some s ∧ b.has_root = root) ∨
        ((∃ q, b.path.head? = some q ∧ s.1 < q.1) ∧ b.has_root = false) := by
  intro ps
  induction ps with
  | nil =>
    intro acc marks
    exact ⟨[], marks, by simp [visitLoop], by simp⟩
  | cons pidx rest ih =>
    intro acc marks
    rw [visitLoop]
    set fp : Nat × Nat := (s.1 + 1, pidx) with hfp
    set fpn := (getEA mb fp).parents.length with hfpn
    set marks1 := if fpn < 2 then fp :: marks else marks with hmarks1
    set walk : List (Nat × Nat) × List (Nat × Nat) × Option (Nat × Nat) :=
      (if fpn = 1 then chainWalk mb cf fp
       else if 1 < fpn then ([], [], some fp)
       else ([], [], none)) with hwalk
    set branch : BranchA := ⟨s :: fp :: walk.1, root, walk.2.2.isNone⟩ with hbranch
    have hbranch_head : branch.path.head? = some s := rfl
    have hbranch_root : branch.has_root = root := rfl
    -- the next split point, if any, lies on a strictly higher layer
    have hfp1 : fp.1 = s.1 + 1 := by rw [hfp]
    have hnb : ∀ nb, walk.2.2 = some nb → s.1 < nb.1 := by
      intro nb hw
      rw [hwalk] at hw
      split at hw
      · have h2 := chainWalk_layer_lt mb cf fp nb hw
        omega
      · split at hw
        · simp at hw
          subst hw
          omega
        · simp at hw
    cases hcase : walk.2.2 with
    | none =>
      simp only [hcase]
      obtain ⟨new, marks', heq, hprop⟩ := ih (acc ++ [branch]) (walk.2.1 ++ marks1)
      refine ⟨branch :: new, marks', ?_, ?_⟩
      · rw [heq]; simp
      · intro b hb
        rcases List.mem_cons.mp hb with hb | hb
        · subst hb; exact Or.inl ⟨hbranch_head, hbranch_root⟩
        · exact hprop b hb
    | some nb =>
      simp only [hcase]
      obtain ⟨newR, marksR, heqR, hpropR⟩ :=
        hrec nb (acc ++ [branch]) (walk.2.1 ++ marks1) (hnb nb hcase) (by simp)
      rw [heqR]
      obtain ⟨new, marks', heq, hprop⟩ := ih ((acc ++ [branch]) ++ newR) marksR
      refine ⟨branch :: (newR ++ new), marks', ?_, ?_⟩
      · rw [heq]; simp
      · intro b hb
        rcases List.mem_cons.mp hb with hb | hb
        · subst hb; exact Or.inl ⟨hbranch_head, hbranch_root⟩
        · rcases List.mem_append.mp hb with hb | hb
          · exact Or.inr (hpropR b hb)
          · exact hprop b hb

theorem visitNode_spec (mb : ForestA) (cf : Nat) :
    ∀ fuel s acc marks, ∃ new marks',
      visitNode mb cf fuel s acc marks = (acc ++ new, marks') ∧
      ∀ b ∈ new, (b.path.head? = some s ∧ b.has_root = acc.isEmpty) ∨
        ((∃ q, b.path.head? = some q ∧ s.1 < q.1) ∧ b.has_root = false) := by
  intro fuel
  induction fuel with
  | zero =>
    intro s acc marks
    exact ⟨[], marks, by simp [visitNode], by simp⟩
  | succ n ih =>
    intro s acc marks
    rw [visitNode]
    have hrec : ∀ r acc0 marks0, s.1 < r.1 → acc0 ≠ [] →
        ∃ new marks', visitNode mb cf n r acc0 marks0 = (acc0 ++ new, marks') ∧
          ∀ b ∈ new, (∃ q, b.path.head? = some q ∧ s.1 < q.1) ∧ b.has_root = false := by
      intro r acc0 marks0 hlt hne
      obtain ⟨new, marks', heq, hprop⟩ := ih r acc0 marks0
      refine ⟨new, marks', heq, ?_⟩
      intro b hb
      rcases hprop b hb with ⟨hh, hr⟩ | ⟨⟨q, hh, hq⟩, hr⟩
      · refine ⟨⟨r, hh, hlt⟩, ?_⟩
        rw [hr]
        cases acc0 with
        | nil => exact absurd rfl hne
        | cons x t => rfl
      · exact ⟨⟨q, hh, lt_trans hlt hq⟩, hr⟩
    exact visitLoop_spec mb cf s acc.isEmpty (visitNode mb cf n) hrec
      (getEA mb s).parents acc (s :: marks)

/-- C1 (amended): in the output of `visit_recursive`, a branch carries
`has_root = true` exactly when its path begins at the tree's start element
(the element the top-level visit was entered with), i.e. exactly the
branches emitted directly by the top-level loop over the start element's
parents — one per parent — carry the flag, not only the first recorded
branch. -/
theorem c1_has_root_iff_head_start (mb : ForestA) (cf fuel : Nat) (s : Nat × Nat)
    (b : BranchA) (hb : b ∈ (visitNode mb cf fuel s [] []).1) :
    b.has_root = true ↔ b.path.head? = some s := by
  obtain ⟨new, marks', heq, hprop⟩ := visitNode_spec mb cf fuel s [] []
  rw [heq] at hb
  simp only [List.nil_append] at hb
  rcases hprop b hb with ⟨hh, hr⟩ | ⟨⟨q, hh, hq⟩, hr⟩
  · simp only [List.isEmpty_nil] at hr
    exact ⟨fun _ => hh, fun _ => hr⟩
  · constructor
    · intro h; rw [hr] at h; exact absurd h (by simp)
    · intro h
      rw [h] at hh
      have : q = s := by injection hh with h'; exact h'.symm
      subst this
      omega

/-- Witness for C1: in the concrete S3 forest the second emitted branch is a
member of the extractor's output and its `has_root` flag agrees with the
path-head characterisation. -/
theorem c1_has_root_iff_head_start_witness :
    (⟨[(0, 0), (1, 1)], true, true⟩ : BranchA) ∈ (visitNode mbS3 4 4 (0, 0) [] []).1 ∧
    ((⟨[(0, 0), (1, 1)], true, true⟩ : BranchA).has_root = true ↔
      (⟨[(0, 0), (1, 1)], true, true⟩ : BranchA).path.head? = some (0, 0)) :=
  ⟨by decide, c1_has_root_iff_head_start mbS3 4 4 (0, 0) _ (by decide)⟩

/-- Counterexample for C1 as stated: in scenario S3 (one root element with
two parentless parents) the extractor emits two branches and BOTH carry
`has_root = true` — the `root` flag is captured before the loop over
parents — contradicting the claim that only the first branch carries
`has_root` and the second has `has_root = false`. -/
theorem c1_counterexample :
    (visitNode mbS3 4 4 (0, 0) [] []).1.map BranchA.has_root = [true, true] ∧
    (visitNode mbS3 4 4 (0, 0) [] []).1.map BranchA.has_root ≠ [true, false] := by
  decide

theorem foldl_preserve {α β : Type} (P : β → Prop) (g : β → α → β)
    (hg : ∀ st a, P st → P (g st a)) :
    ∀ (l : List α) (st : β), P st → P (l.foldl g st) := by
  intro l
  induction l with
  | nil => intro st h; simpa using h
  | cons a t ih => intro st h; exact ih (g st a) (hg st a h)

theorem extractStep_inv (mb : ForestA) (cf fuel : Nat) (st : ExtractStateA) (r : Nat × Nat)
    (h : st.trees = (st.built.filter (keptFlag mb)).map Prod.snd) :
    (extractStep mb cf fuel st r).trees =
      ((extractStep mb cf fuel st r).built.filter (keptFlag mb)).map Prod.snd := by
  by_cases hm : r ∈ st.marks
  · simp [extractStep, hm, h]
  · by_cases hp : (getEA mb r).parents = []
    · simp [extractStep, hm, hp, h]
    · by_cases hf : ((getEA mb r).lost || (getEA mb r).verylost) = true
      · simp [extractStep, hm, hp, hf, List.filter_append, h, keptFlag]
      · simp [extractStep, hm, hp, hf, List.filter_append, h, keptFlag, List.dropLast_concat]

/-- C2: a tree built from a visited start element (unmarked, with non-empty
parents) is kept in the output list of trees if and only if the start
element has `lost` or `verylost` set; otherwise the freshly built tree is
popped again and contributes nothing downstream.  Stated as: the kept trees
are exactly the built trees whose start passes the lost/verylost gate. -/
theorem c2_tree_kept_iff_lost_or_verylost (mb : ForestA) (cf fuel : Nat) :
    (extractAll mb cf fuel).trees =
      ((extractAll mb cf fuel).built.filter (keptFlag mb)).map Prod.snd := by
  unfold extractAll
  refine foldl_preserve
    (fun st : ExtractStateA => st.trees = (st.built.filter (keptFlag mb)).map Prod.snd)
    (fun st li => (List.range (mb.getD li []).length).foldl
      (fun st2 ei => extractStep mb cf fuel st2 (li, ei)) st) ?_ _ _ (by simp)
  intro st li hst
  exact foldl_preserve
    (fun st : ExtractStateA => st.trees = (st.built.filter (keptFlag mb)).map Prod.snd)
    (fun st2 ei => extractStep mb cf fuel st2 (li, ei))
    (fun st2 ei h2 => extractStep_inv mb cf fuel st2 (li, ei) h2) _ st hst

/-! ## Strip triangulation model (`triangulate_strip`, lines 68-131)

Vertices are embedded as rational triples; only squared-distance
comparisons steer the algorithm, so the counting and index-range
properties are independent of the numeric embedding. -/

/-- Vertex of the model vertex buffer (`its.vertices`). -/
abbrev Vec3Q := ℚ × ℚ × ℚ

/-- Squared distance between two vertices (`(p2 - p1).squaredNorm()`). -/
def sqDist3 (a b : Vec3Q) : ℚ :=
  (a.1 - b.1) ^ 2 + (a.2.1 - b.2.1) ^ 2 + (a.2.2 - b.2.2) ^ 2

/-- Scan for the vertex of ring 2 closest to the first vertex of ring 1
(lines 80-92).  The running minimum starts at FLT_MAX in the source; `none`
plays that role here. -/
def stripStart (verts : List Vec3Q) (ib1 ib2 ie2 : Nat) : Nat :=
  let p1 := verts.getD ib1 (0, 0, 0)
  ((List.range' ib2 (ie2 - ib2)).foldl
    (fun (best : Option ℚ × Nat) i =>
      let d2 := sqDist3 (verts.getD i (0, 0, 0)) p1
      match best.1 with
      | none => (some d2, i)
      | some dmin => if d2 < dmin then (some d2, i) else best)
    ((none : Option ℚ), ib2)).2

/-- Zig-zag strip loop (lines 95-130): while either ring has vertices left,
emit one triangle, taking the shorter diagonal when both rings are live,
and advance (with wrap-around) on the consumed ring.  `fuel` equals the
loop's exact trip count `n1 + n2` — each iteration emits one triangle and
decrements `n1` or `n2` — and `triangulate_strip` below invokes the loop
with exactly that fuel. -/
def stripLoop (verts : List Vec3Q) (ib1 ie1 ib2 ie2 : Nat) :
    Nat → Nat → Nat → Nat → Nat → List (Nat × Nat × Nat)
  | 0, _, _, _, _ => []
  | _+1, _, _, 0, 0 => []
  | fuel+1, u, v, n1'+1, 0 =>
    (u, if u + 1 = ie1 then ib1 else u + 1, v) ::
      stripLoop verts ib1 ie1 ib2 ie2 fuel (if u + 1 = ie1 then ib1 else u + 1) v n1' 0
  | fuel+1, u, v, 0, n2'+1 =>
    (u, if v + 1 = ie2 then ib2 else v + 1, v) ::
      stripLoop verts ib1 ie1 ib2 ie2 fuel u (if v + 1 = ie2 then ib2 else v + 1) 0 n2'
  | fuel+1, u, v, n1'+1, n2'+1 =>
    if sqDist3 (verts.getD (if u + 1 = ie1 then ib1 else u + 1) (0, 0, 0)) (verts.getD v (0, 0, 0)) <
        sqDist3 (verts.getD (if v + 1 = ie2 then ib2 else v + 1) (0, 0, 0)) (verts.getD u (0, 0, 0)) then
      (u, if u + 1 = ie1 then ib1 else u + 1, v) ::
        stripLoop verts ib1 ie1 ib2 ie2 fuel (if u + 1 = ie1 then ib1 else u + 1) v n1' (n2' + 1)
    else
      (u, if v + 1 = ie2 then ib2 else v + 1, v) ::
        stripLoop verts ib1 ie1 ib2 ie2 fuel u (if v + 1 = ie2 then ib2 else v + 1) (n1' + 1) n2'

/-- `triangulate_strip` (lines 68-131) on the model vertex buffer: the list
of triangles appended to `its.indices`. -/
def triangulate_strip (verts : List Vec3Q) (ib1 ie1 ib2 ie2 : Nat) : List (Nat × Nat × Nat) :=
  stripLoop verts ib1 ie1 ib2 ie2 ((ie1 - ib1) + (ie2 - ib2))
    ib1 (stripStart verts ib1 ib2 ie2) (ie1 - ib1) (ie2 - ib2)

/-- Index lies in one of the two vertex ranges handed to
`triangulate_strip`. -/
def stripIndexOk (ib1 ie1 ib2 ie2 i : Nat) : Prop :=
  (ib1 ≤ i ∧ i < ie1) ∨ (ib2 ≤ i ∧ i < ie2)

/-- Demonstration vertex buffer: two triangle rings. -/
def demoVerts : List Vec3Q :=
  [(0, 0, 0), (1, 0, 0), (0, 1, 0), (0, 0, 1), (1, 0, 1), (0, 1, 1)]

/-! ## Theorems for the strip triangulation -/

theorem wrapBound (a ib ie : Nat) (h1 : ib ≤ a) (h2 : a < ie) :
    ib ≤ (if a + 1 = ie then ib else a + 1) ∧ (if a + 1 = ie then ib else a + 1) < ie := by
  split <;> omega

theorem stripLoop_length (verts : List Vec3Q) (ib1 ie1 ib2 ie2 : Nat) :
    ∀ fuel u v n1 n2, n1 + n2 ≤ fuel →
      (stripLoop verts ib1 ie1 ib2 ie2 fuel u v n1 n2).length = n1 + n2 := by
  intro fuel
  induction fuel with
  | zero =>
    intro u v n1 n2 h
    have hn1 : n1 = 0 := by omega
    have hn2 : n2 = 0 := by omega
    subst hn1; subst hn2
    simp [stripLoop]
  | succ f ih =>
    intro u v n1 n2 h
    match n1, n2 with
    | 0, 0 => simp [stripLoop]
    | n1'+1, 0 =>
      rw [stripLoop]
      simp only [List.length_cons]
      rw [ih _ _ _ _ (by omega)]
    | 0, n2'+1 =>
      rw [stripLoop]
      simp only [List.length_cons]
      rw [ih _ _ _ _ (by omega)]
      omega
    | n1'+1, n2'+1 =>
      rw [stripLoop]
      generalize (if u + 1 = ie1 then ib1 else u + 1) = wu
      generalize (if v + 1 = ie2 then ib2 else v + 1) = wv
      split
      · simp only [List.length_cons]
        rw [ih _ _ _ _ (by omega)]
        omega
      · simp only [List.length_cons]
        rw [ih _ _ _ _ (by omega)]
        omega

theorem stripLoop_ranges (verts : List Vec3Q) (ib1 ie1 ib2 ie2 : Nat) :
    ∀ fuel u v n1 n2, ib1 ≤ u → u < ie1 → ib2 ≤ v → v < ie2 →
      ∀ t ∈ stripLoop verts ib1 ie1 ib2 ie2 fuel u v n1 n2,
        stripIndexOk ib1 ie1 ib2 ie2 t.1 ∧ stripIndexOk ib1 ie1 ib2 ie2 t.2.1 ∧
          stripIndexOk ib1 ie1 ib2 ie2 t.2.2 := by
  intro fuel
  induction fuel with
  | zero => intro u v n1 n2 _ _ _ _ t ht; simp [stripLoop] at ht
  | succ f ih =>
    intro u v n1 n2 hu1 hu2 hv1 hv2 t ht
    obtain ⟨hwu1, hwu2⟩ := wrapBound u ib1 ie1 hu1 hu2
    obtain ⟨hwv1, hwv2⟩ := wrapBound v ib2 ie2 hv1 hv2
    match n1, n2 with
    | 0, 0 => simp [stripLoop] at ht
    | n1'+1, 0 =>
      rw [stripLoop] at ht
      rcases List.mem_cons.mp ht with ht | ht
      · subst ht
        exact ⟨Or.inl ⟨hu1, hu2⟩, Or.inl ⟨hwu1, hwu2⟩, Or.inr ⟨hv1, hv2⟩⟩
      · exact ih _ _ _ _ hwu1 hwu2 hv1 hv2 t ht
    | 0, n2'+1 =>
      rw [stripLoop] at ht
      rcases List.mem_cons.mp ht with ht | ht
      · subst ht
        exact ⟨Or.inl ⟨hu1, hu2⟩, Or.inr ⟨hwv1, hwv2⟩, Or.inr ⟨hv1, hv2⟩⟩
      · exact ih _ _ _ _ hu1 hu2 hwv1 hwv2 t ht
    | n1'+1, n2'+1 =>
      rw [stripLoop] at ht
      generalize hgu : (if u + 1 = ie1 then ib1 else u + 1) = wu at ht
      generalize hgv : (if v + 1 = ie2 then ib2 else v + 1) = wv at ht
      rw [hgu] at hwu1 hwu2
      rw [hgv] at hwv1 hwv2
      split at ht
      · rcases List.mem_cons.mp ht with ht | ht
        · subst ht
          exact ⟨Or.inl ⟨hu1, hu2⟩, Or.inl ⟨hwu1, hwu2⟩, Or.inr ⟨hv1, hv2⟩⟩
        · exact ih _ _ _ _ hwu1 hwu2 hv1 hv2 t ht
      · rcases List.mem_cons.mp ht with ht | ht
        · subst ht
          exact ⟨Or.inl ⟨hu1, hu2⟩, Or.inr ⟨hwv1, hwv2⟩, Or.inr ⟨hv1, hv2⟩⟩
        · exact ih _ _ _ _ hu1 hu2 hwv1 hwv2 t ht

theorem stripStart_mem (verts : List Vec3Q) (ib1 ib2 ie2 : Nat) (h : ib2 < ie2) :
    ib2 ≤ stripStart verts ib1 ib2 ie2 ∧ stripStart verts ib1 ib2 ie2 < ie2 := by
  unfold stripStart
  have : ∀ (l : List Nat) (best : Option ℚ × Nat),
      (∀ i ∈ l, ib2 ≤ i ∧ i < ie2) → ib2 ≤ best.2 ∧ best.2 < ie2 →
      ib2 ≤ (l.foldl (fun (best : Option ℚ × Nat) i =>
          let d2 := sqDist3 (verts.getD i (0, 0, 0)) (verts.getD ib1 (0, 0, 0))
          match best.1 with
          | none => (some d2, i)
          | some dmin => if d2 < dmin then (some d2, i) else best) best).2 ∧
        (l.foldl (fun (best : Option ℚ × Nat) i =>
          let d2 := sqDist3 (verts.getD i (0, 0, 0)) (verts.getD ib1 (0, 0, 0))
          match best.1 with
          | none => (some d2, i)
          | some dmin => if d2 < dmin then (some d2, i) else best) best).2 < ie2 := by
    intro l
    induction l with
    | nil => intro best _ hb; simpa using hb
    | cons a t ihl =>
      intro best hl hb
      simp only [List.foldl_cons]
      refine ihl _ (fun i hi => hl i (List.mem_cons_of_mem a hi)) ?_
      have ha := hl a (List.mem_cons_self a t)
      rcases hbest : best.1 with _ | dmin
      · simpa using ha
      · simp only []
        split
        · simpa using ha
        · exact hb
  refine this _ _ ?_ ⟨le_refl ib2, h⟩
  intro i hi
  have := List.mem_range'_1.mp hi
  omega

/-- C9: for two vertex rings `[ibegin1, iend1)` and `[ibegin2, iend2)` with
at least three vertices each (the source asserts this), `triangulate_strip`
appends exactly `n1 + n2` triangles, and every vertex index of every
appended triangle lies in one of the two input ranges. -/
theorem c9_triangulate_strip_count_ranges (verts : List Vec3Q) (ib1 ie1 ib2 ie2 : Nat)
    (h1 : ib1 + 3 ≤ ie1) (h2 : ib2 + 3 ≤ ie2) :
    (triangulate_strip verts ib1 ie1 ib2 ie2).length = (ie1 - ib1) + (ie2 - ib2) ∧
    ∀ t ∈ triangulate_strip verts ib1 ie1 ib2 ie2,
      stripIndexOk ib1 ie1 ib2 ie2 t.1 ∧ stripIndexOk ib1 ie1 ib2 ie2 t.2.1 ∧
        stripIndexOk ib1 ie1 ib2 ie2 t.2.2 := by
  obtain ⟨hs1, hs2⟩ := stripStart_mem verts ib1 ib2 ie2 (by omega)
  constructor
  · exact stripLoop_length verts ib1 ie1 ib2 ie2 _ _ _ _ _ (le_refl _)
  · exact stripLoop_ranges verts ib1 ie1 ib2 ie2 _ _ _ _ _
      (le_refl ib1) (by omega) hs1 hs2

/-- Witness for C9: two concrete triangle rings satisfy the size bounds and
the first emitted triangle of the run is in range. -/
theorem c9_triangulate_strip_count_ranges_witness :
    ((0 : Nat) + 3 ≤ 3 ∧ 3 + 3 ≤ 6) ∧
    ((triangulate_strip demoVerts 0 3 3 6).length = (3 - 0) + (6 - 3) ∧
      ∀ t ∈ triangulate_strip demoVerts 0 3 3 6,
        stripIndexOk 0 3 3 6 t.1 ∧ stripIndexOk 0 3 3 6 t.2.1 ∧ stripIndexOk 0 3 3 6 t.2.2) :=
  ⟨by decide, c9_triangulate_strip_count_ranges demoVerts 0 3 3 6 (by decide) (by decide)⟩

/-! ## Root bottom propagation model (`organic_draw_branches`, lines 800-828)

The polygon algebra (`diff_clipped`, `area`, the collision store) is
external; it enters as parameters over an abstract polygon type `P`.  The
propagation runs for a root branch whose first element has
`to_model_gracious = false` and whose `layer_begin > 0` (line 800). -/

/-- Number of layers the root slice may propagate down (line 811):
`5 * bottom_radius / config.layer_height` in integer arithmetic on scaled
coordinates. -/
def layersPropagateMax (bottomRadius layerHeight : Int) : Int :=
  5 * bottomRadius / layerHeight

/-- Lowest layer the propagation may reach (lines 812-816): all the way to
layer 0 for a verylost root, otherwise at most `layers_propagate_max`
layers below `layer_begin`. -/
def layerBottommost (verylost : Bool) (layerBegin lpm : Int) : Int :=
  if verylost then 0 else max 0 (layerBegin - lpm)

/-- Area threshold that stops the propagation (lines 817-818):
`max(0.2·π·bottom_radius², 0.5·support_area_min_radius)` with
`support_area_min_radius = π·branch_radius²` (radii in scaled units). -/
noncomputable def supportAreaStop (bottomRadius branchRadius : Int) : ℝ :=
  max (0.2 * Real.pi * (bottomRadius : ℝ) ^ 2) (0.5 * (Real.pi * (branchRadius : ℝ) ^ 2))

/-- Descending layer list `[layerBegin-1, …, lb]` traversed by the
propagation loop (line 821). -/
def layerRangeDesc (layerBegin lb : Int) : List Int :=
  (List.range (layerBegin - lb).toNat).map (fun k : Nat => layerBegin - 1 - (k : Int))

/-- Propagation loop (lines 821-828): each step subtracts the layer
collision from the running rest (`rest_support`, seeded from the front
slice while the rest is still the default-empty polygon set), breaks
before pushing when the rest area drops below `stop`, and otherwise pushes
the rest together with its area.  The source binds the updated rest to a
variable; it is written out here. -/
noncomputable def propagateLoop {P : Type} (diffC : Int → P → P) (areaP : P → ℝ)
    (emptyP : P → Bool) (front : P) (stop : ℝ) : List Int → P → List (P × ℝ)
  | [], _ => []
  | l :: ls, rest =>
    if areaP (diffC l (if emptyP rest then front else rest)) < stop then []
    else (diffC l (if emptyP rest then front else rest),
          areaP (diffC l (if emptyP rest then front else rest))) ::
      propagateLoop diffC areaP emptyP front stop ls (diffC l (if emptyP rest then front else rest))

/-- Stream of rests the loop computes along the whole layer range
(ignoring the stop threshold). -/
def restSeq {P : Type} (diffC : Int → P → P) (emptyP : P → Bool) (front : P) :
    List Int → P → List P
  | [], _ => []
  | l :: ls, rest =>
    diffC l (if emptyP rest then front else rest) ::
      restSeq diffC emptyP front ls (diffC l (if emptyP rest then front else rest))

/-- bottom_extra_slices accumulated by `organic_draw_branches`
(lines 800-828) for a non-gracious root with `layer_begin > 0`; `rest0` is
the default-constructed (empty) `rest_support`. -/
noncomputable def bottomExtraSlices {P : Type} (diffC : Int → P → P) (areaP : P → ℝ)
    (emptyP : P → Bool) (front rest0 : P) (layerBegin : Int) (verylost : Bool)
    (bottomRadius branchRadius layerHeight : Int) : List (P × ℝ) :=
  propagateLoop diffC areaP emptyP front (supportAreaStop bottomRadius branchRadius)
    (layerRangeDesc layerBegin
      (layerBottommost verylost layerBegin (layersPropagateMax bottomRadius layerHeight)))
    rest0

/-! ## Theorems for the root bottom propagation -/

theorem propagateLoop_length_le {P : Type} (diffC : Int → P → P) (areaP : P → ℝ)
    (emptyP : P → Bool) (front : P) (stop : ℝ) :
    ∀ (ls : List Int) (rest : P),
      (propagateLoop diffC areaP emptyP front stop ls rest).length ≤ ls.length := by
  intro ls
  induction ls with
  | nil => intro rest; simp [propagateLoop]
  | cons l t ih =>
    intro rest
    rw [propagateLoop]
    generalize (if emptyP rest then front else rest) = base
    split
    · simp
    · simpa using ih _

theorem propagateLoop_mem {P : Type} (diffC : Int → P → P) (areaP : P → ℝ)
    (emptyP : P → Bool) (front : P) (stop : ℝ) :
    ∀ (ls : List Int) (rest : P), ∀ e ∈ propagateLoop diffC areaP emptyP front stop ls rest,
      e.2 = areaP e.1 ∧ stop ≤ e.2 := by
  intro ls
  induction ls with
  | nil => intro rest e he; simp [propagateLoop] at he
  | cons l t ih =>
    intro rest e he
    rw [propagateLoop] at he
    generalize (if emptyP rest then front else rest) = base at he
    split at he
    · simp at he
    next hc =>
      rcases List.mem_cons.mp he with he | he
      · subst he
        exact ⟨rfl, not_lt.mp hc⟩
      · exact ih _ e he

theorem propagateLoop_eq_takeWhile {P : Type} (diffC : Int → P → P) (areaP : P → ℝ)
    (emptyP : P → Bool) (front : P) (stop : ℝ) :
    ∀ (ls : List Int) (rest : P),
      propagateLoop diffC areaP emptyP front stop ls rest =
        ((restSeq diffC emptyP front ls rest).map (fun p => (p, areaP p))).takeWhile
          (fun e => decide (stop ≤ e.2)) := by
  intro ls
  induction ls with
  | nil => intro rest; simp [propagateLoop, restSeq]
  | cons l t ih =>
    intro rest
    rw [propagateLoop, restSeq]
    generalize (if emptyP rest then front else rest) = base
    by_cases hc : areaP (diffC l base) < stop
    · rw [if_pos hc]
      simp [List.takeWhile_cons, not_le.mpr hc]
    · rw [if_neg hc]
      simp only [List.map_cons, List.takeWhile_cons]
      simp [not_lt.mp hc, ih]

theorem layerRangeDesc_length (layerBegin lb : Int) :
    (layerRangeDesc layerBegin lb).length = (layerBegin - lb).toNat := by
  unfold layerRangeDesc
  rw [List.length_map, List.length_range]

/-- C7: for a non-gracious root with `layer_begin > 0`, the front slice is
propagated downward layer by layer, each step computing
`rest := rest − collision(0, layer, false)` and pushing `(rest, area rest)`,
stopping when `area(rest)` drops below
`max(0.2·π·bottom_radius², 0.5·π·branch_radius²)`; at most
`5·bottom_radius/layer_height` layers are propagated, or all the way down
to layer 0 when the root is verylost. -/
theorem c7_root_propagation {P : Type} (diffC : Int → P → P) (areaP : P → ℝ)
    (emptyP : P → Bool) (front rest0 : P) (layerBegin : Int) (verylost : Bool)
    (bottomRadius branchRadius layerHeight : Int)
    (hbr : 0 ≤ bottomRadius) (hlh : 0 < layerHeight) :
    supportAreaStop bottomRadius branchRadius =
      max (0.2 * Real.pi * (bottomRadius : ℝ) ^ 2)
        (0.5 * (Real.pi * (branchRadius : ℝ) ^ 2)) ∧
    (verylost = false →
      ((bottomExtraSlices diffC areaP emptyP front rest0 layerBegin verylost
          bottomRadius branchRadius layerHeight).length : Int) ≤
        layersPropagateMax bottomRadius layerHeight) ∧
    (verylost = true →
      layerBottommost verylost layerBegin (layersPropagateMax bottomRadius layerHeight) = 0) ∧
    (∀ e ∈ bottomExtraSlices diffC areaP emptyP front rest0 layerBegin verylost
        bottomRadius branchRadius layerHeight,
      e.2 = areaP e.1 ∧ supportAreaStop bottomRadius branchRadius ≤ e.2) ∧
    bottomExtraSlices diffC areaP emptyP front rest0 layerBegin verylost
        bottomRadius branchRadius layerHeight =
      ((restSeq diffC emptyP front
          (layerRangeDesc layerBegin
            (layerBottommost verylost layerBegin (layersPropagateMax bottomRadius layerHeight)))
          rest0).map (fun p => (p, areaP p))).takeWhile
        (fun e => decide (supportAreaStop bottomRadius branchRadius ≤ e.2)) := by
  have hlpm : 0 ≤ layersPropagateMax bottomRadius layerHeight :=
    Int.ediv_nonneg (by omega) (le_of_lt hlh)
  refine ⟨rfl, ?_, ?_, ?_, ?_⟩
  · intro hv
    have hlen := propagateLoop_length_le diffC areaP emptyP front
      (supportAreaStop bottomRadius branchRadius)
      (layerRangeDesc layerBegin
        (layerBottommost verylost layerBegin (layersPropagateMax bottomRadius layerHeight)))
      rest0
    rw [layerRangeDesc_length] at hlen
    unfold bottomExtraSlices
    subst hv
    unfold layerBottommost at hlen ⊢
    simp only [Bool.false_eq_true, if_false] at hlen ⊢
    omega
  · intro hv
    subst hv
    simp [layerBottommost]
  · exact propagateLoop_mem diffC areaP emptyP front _ _ rest0
  · exact propagateLoop_eq_takeWhile diffC areaP emptyP front _ _ rest0

/-- Witness for C7: a concrete instantiation with unit radii and a constant
area of 7 (above the stop threshold, which is at most 2 since π ≤ 4);
propagation from layer 1 pushes exactly one entry. -/
theorem c7_root_propagation_witness :
    ((0 : Int) ≤ 1 ∧ (0 : Int) < 1) ∧
    (((bottomExtraSlices (P := Int) (fun _ p => p) (fun _ => (7 : ℝ)) (fun _ => true)
        0 0 1 false 1 1 1).length : Int) ≤ layersPropagateMax 1 1) ∧
    layerBottommost true 1 (layersPropagateMax 1 1) = 0 ∧
    (((0 : Int), (7 : ℝ)).2 = (7 : ℝ) ∧
      supportAreaStop 1 1 ≤ ((0 : Int), (7 : ℝ)).2) := by
  have h1 := c7_root_propagation (P := Int) (fun _ p => p) (fun _ => (7 : ℝ)) (fun _ => true)
    0 0 1 false 1 1 1 (by norm_num) (by norm_num)
  have h2 := c7_root_propagation (P := Int) (fun _ p => p) (fun _ => (7 : ℝ)) (fun _ => true)
    0 0 1 true 1 1 1 (by norm_num) (by norm_num)
  have hstop : supportAreaStop 1 1 ≤ 7 := by
    have hpi := Real.pi_le_four
    have hpi0 := Real.pi_pos
    unfold supportAreaStop
    rw [max_le_iff]
    constructor <;> nlinarith
  have h7 : ¬ ((7 : ℝ) < supportAreaStop 1 1) := not_lt.mpr hstop
  have hrange : layerRangeDesc 1 (layerBottommost false 1 (layersPropagateMax 1 1)) = [0] := by
    decide
  have hmem : ((0 : Int), (7 : ℝ)) ∈ bottomExtraSlices (P := Int) (fun _ p => p)
      (fun _ => (7 : ℝ)) (fun _ => true) 0 0 1 false 1 1 1 := by
    unfold bottomExtraSlices
    rw [hrange]
    rw [propagateLoop]
    simp [h7]
  exact ⟨⟨by norm_num, by norm_num⟩, h1.2.1 rfl, h2.2.2.1 rfl,
    (h1.2.2.2.1 _ hmem).imp_left (fun h => h)⟩

/-! ## Sphere solver model (`organic_smooth_branches_avoid_collisions`, lines 262-471)

Positions are real-valued (the source uses floats; the claims under
verification are about the algebraic structure of the updates, not about
rounding).  The external AABB line query, the slicing parameter queries
(`layer_z`, scaling) and the cancellation probe are parameters. -/

/-- Planar position. -/
abbrev Vec2R := ℝ × ℝ

/-- Spatial position. -/
abbrev Vec3R := ℝ × ℝ × ℝ

/-- Euclidean norm of a planar vector. -/
noncomputable def vnorm (v : Vec2R) : ℝ := Real.sqrt (v.1 ^ 2 + v.2 ^ 2)

/-- Normalised planar vector (`.normalized()`). -/
noncomputable def vnormalize (v : Vec2R) : Vec2R := (v.1 / vnorm v, v.2 / vnorm v)

/-- Planar part of a spatial position (`to_2d`, `.head<2>()`). -/
def xyOf (p : Vec3R) : Vec2R := (p.1, p.2.1)

/-- Replace the planar part of a spatial position, keeping z. -/
def withXY (p : Vec3R) (q : Vec2R) : Vec3R := (q.1, q.2, p.2.2)

/-- Constant `collision_extra_gap` (line 384). -/
noncomputable def collision_extra_gap : ℝ := 0.1

/-- Constant `max_nudge_collision_avoidance` (line 385). -/
noncomputable def max_nudge_collision_avoidance : ℝ := 0.5

/-- Constant `max_nudge_smoothing` (line 386). -/
noncomputable def max_nudge_smoothing : ℝ := 0.2

/-- Constant `smoothing_factor` (line 445). -/
noncomputable def smoothing_factor : ℝ := 0.5

/-- Constant `num_iter` (line 387). -/
def num_iter : Nat := 100

/-- Stand-in for `std::numeric_limits<double>::max()` (line 398). -/
noncomputable def dblMax : ℝ := 1.7976931348623157e308

/-- Support element data consumed by the solver: layer index, scaled planar
result position, parent indices into the layer above, and the scaled
radius delivered by `getRadius(config, state)`. -/
structure SupportElementS where
  layer_idx : Int
  result_on_layer : Int × Int
  parents : List Nat
  radius_scaled : Int
deriving Inhabited

/-- CollisionSphere solver state (lines 312-332). -/
structure CollisionSphereM where
  parents : List Nat
  element_below_id : Int
  locked : Bool
  radius : ℝ
  layer_idx : Int
  position : Vec3R
  prev_position : Vec3R
  last_collision : Vec3R
  last_collision_depth : ℝ
  layer_begin : Nat
  layer_end : Nat
deriving Inhabited

/-- CollisionSphere construction (lines 336-347): aggregate initialisation
with the locked flag `parents.empty() || (link_down == -1 && layer_idx > 0)`,
the unscaled radius and the unscaled 3D position; the remaining fields are
value-initialised to zero.  The collision scan window `layer_begin` /
`layer_end` (lines 348-380) is derived through external `slicing_params`
queries (`layer_idx_ceil` / `layer_idx_floor`) and is taken as an input
here; no claim under verification depends on its derivation. -/
noncomputable def mkCollisionSphere (unscale : Int → ℝ) (layerZ : Int → ℝ)
    (e : SupportElementS) (link_down : Int) (lb le : Nat) : CollisionSphereM :=
  { parents := e.parents
    element_below_id := link_down
    locked := e.parents.isEmpty || (link_down == -1 && decide (0 < e.layer_idx))
    radius := unscale e.radius_scaled
    layer_idx := e.layer_idx
    position := (unscale e.result_on_layer.1, unscale e.result_on_layer.2, layerZ e.layer_idx)
    prev_position := (0, 0, 0)
    last_collision := (0, 0, 0)
    last_collision_depth := 0
    layer_begin := lb
    layer_end := le }

/-- Collision scan of one unlocked sphere over its layer window
(lines 397-416).  `query layer p r2` abstracts
`squared_distance_to_indexed_lines` over the layer's line cache: `none`
when the layer cache is empty or the query reports no hit within the bound
`r2` (a negative return in the source); `some (sqd, hit)` the squared
distance and hit point otherwise.  The depth accumulator starts at
`-DBL_MAX` (line 398) and keeps the deepest collision with its 3D hit
point. -/
noncomputable def collisionScan (query : Nat → Vec2R → ℝ → Option (ℝ × Vec2R))
    (layer_height : ℝ) (layerZ : Int → ℝ) (s : CollisionSphereM) : CollisionSphereM :=
  let r := (List.range' s.layer_begin (s.layer_end - s.layer_begin)).foldl
    (fun (acc : ℝ × Vec3R) (layer_id : Nat) =>
      if 0 < s.radius ^ 2 - ((((layer_id : Int) - s.layer_idx : Int) : ℝ) * layer_height) ^ 2 then
        match query layer_id (xyOf s.position)
            (s.radius ^ 2 - ((((layer_id : Int) - s.layer_idx : Int) : ℝ) * layer_height) ^ 2) with
        | some hit =>
          if acc.1 < Real.sqrt (s.radius ^ 2 -
              ((((layer_id : Int) - s.layer_idx : Int) : ℝ) * layer_height) ^ 2) - Real.sqrt hit.1
          then (Real.sqrt (s.radius ^ 2 -
              ((((layer_id : Int) - s.layer_idx : Int) : ℝ) * layer_height) ^ 2) - Real.sqrt hit.1,
            (hit.2.1, hit.2.2, layerZ (layer_id : Int)))
          else acc
        | none => acc
      else acc)
    (-dblMax, s.last_collision)
  { s with last_collision_depth := r.1, last_collision := r.2 }

/-- Collision nudge (lines 417-427): when the computed depth is positive,
shift the planar position by `nudge_vector * nudge_dist`, where
`nudge_vector` is already the unit direction times `nudge_dist`. -/
noncomputable def collisionNudge (s : CollisionSphereM) : CollisionSphereM :=
  if 0 < s.last_collision_depth then
    { s with position := withXY s.position (xyOf s.position +
        (min (max 0 (s.last_collision_depth + collision_extra_gap)) max_nudge_collision_avoidance) •
          ((min (max 0 (s.last_collision_depth + collision_extra_gap)) max_nudge_collision_avoidance) •
            vnormalize (xyOf s.position - xyOf s.last_collision))) }
  else s

/-- Weighted neighbour accumulation of the Laplacian smoothing
(lines 429-443): every parent contributes its `prev_position` with weight
equal to the sphere's own radius; a child contributes its `prev_position`
with weight equal to the accumulated parent weight. -/
noncomputable def smoothAccum (lin : List Nat) (ss : List CollisionSphereM)
    (s : CollisionSphereM) : Vec2R × ℝ :=
  let aw : Vec2R × ℝ := s.parents.foldl
    (fun aw ip =>
      (aw.1 + s.radius • xyOf (ss.getD (lin.getD (s.layer_idx + 1).toNat 0 + ip) default).prev_position,
       aw.2 + s.radius))
    ((0, 0), 0)
  if s.element_below_id ≠ -1 then
    (aw.1 + aw.2 • xyOf (ss.getD (lin.getD (s.layer_idx - 1).toNat 0 + s.element_below_id.toNat) default).prev_position,
     aw.2 + aw.2)
  else aw

/-- Laplacian smoothing step (lines 428-452): normalise the accumulated
average by the total weight, blend with `smoothing_factor`, and move along
the normalised shift by `min(max(0, |shift|), max_nudge_smoothing)`. -/
noncomputable def smoothSphere (lin : List Nat) (ss : List CollisionSphereM)
    (s : CollisionSphereM) : CollisionSphereM :=
  let aw := smoothAccum lin ss s
  let avg : Vec2R := ((aw.1).1 / aw.2, (aw.1).2 / aw.2)
  let old_pos := xyOf s.position
  let new_pos := (1 - smoothing_factor) • old_pos + smoothing_factor • avg
  let shift := new_pos - old_pos
  let moved := old_pos + (min (max 0 (vnorm shift)) max_nudge_smoothing) • vnormalize shift
  { s with position := withXY s.position moved }

/-- Per-sphere body of the parallel solver pass (lines 395-455): locked
spheres are skipped entirely; an unlocked sphere runs the collision scan,
the collision nudge and the Laplacian smoothing in sequence.  `ss` is the
sphere array as of the start of the pass (neighbour `prev_position` reads
are stable during the parallel pass). -/
noncomputable def updateSphere (query : Nat → Vec2R → ℝ → Option (ℝ × Vec2R))
    (layer_height : ℝ) (layerZ : Int → ℝ) (lin : List Nat)
    (ss : List CollisionSphereM) (s : CollisionSphereM) : CollisionSphereM :=
  if s.locked then s
  else smoothSphere lin ss (collisionNudge (collisionScan query layer_height layerZ s))

/-- Serial `prev_position := position` backup at the start of each pass
(lines 390-391), applied to every sphere, locked or not. -/
noncomputable def prevCopy (ss : List CollisionSphereM) : List CollisionSphereM :=
  ss.map fun s => { s with prev_position := s.position }

/-- One solver pass (lines 389-456): the serial prev-position backup
followed by the parallel per-sphere update. -/
noncomputable def solverPass (query : Nat → Vec2R → ℝ → Option (ℝ × Vec2R))
    (layer_height : ℝ) (layerZ : Int → ℝ) (lin : List Nat)
    (ss : List CollisionSphereM) : List CollisionSphereM :=
  (prevCopy ss).map (updateSphere query layer_height layerZ lin (prevCopy ss))

/-- The pass's `num_moved` counter (lines 392, 417-422): unlocked spheres
whose freshly computed collision depth exceeds both 0 and EPSILON.
EPSILON comes from the libslic3r headers (outside this file) and is kept
as the parameter `eps`. -/
noncomputable def movedCount (eps : ℝ) (ss : List CollisionSphereM) : Nat :=
  ss.countP fun s => !s.locked && decide (0 < s.last_collision_depth) &&
    decide (eps < s.last_collision_depth)

/-- Solver iteration loop (lines 388-467): up to `fuel` passes, early exit
as soon as a pass ends with `num_moved == 0`.  Returns the final state and
the number of passes executed. -/
noncomputable def solverLoop (pass : List CollisionSphereM → List CollisionSphereM)
    (mc : List CollisionSphereM → Nat) :
    Nat → List CollisionSphereM → List CollisionSphereM × Nat
  | 0, ss => (ss, 0)
  | n+1, ss =>
    if mc (pass ss) = 0 then (pass ss, 1)
    else ((solverLoop pass mc n (pass ss)).1, (solverLoop pass mc n (pass ss)).2 + 1)

/-- The solver's iteration phase with the source's `num_iter = 100`. -/
noncomputable def organicSolver (query : Nat → Vec2R → ℝ → Option (ℝ × Vec2R))
    (layer_height : ℝ) (layerZ : Int → ℝ) (lin : List Nat) (eps : ℝ)
    (ss : List CollisionSphereM) : List CollisionSphereM × Nat :=
  solverLoop (solverPass query layer_height layerZ lin) (movedCount eps) num_iter ss

/-- One solver pass with the cancellation probe threaded through the
worker (lines 393-456): the tbb parallel loop is modelled sequentially
(each sphere's update reads only the pass-start array), and the probe runs
once per unlocked sphere after its work (line 454).  `probe k = some e`
means the k-th probe call raises `e`; a raise aborts the pass and
propagates `e`. -/
noncomputable def solverPassProbe {E : Type} (probe : Nat → Option E)
    (upd : CollisionSphereM → CollisionSphereM) :
    List CollisionSphereM → Nat → Except E (List CollisionSphereM × Nat)
  | [], k => .ok ([], k)
  | s :: rest, k =>
    if s.locked then
      match solverPassProbe probe upd rest k with
      | .error e => .error e
      | .ok r => .ok (s :: r.1, r.2)
    else
      match probe k with
      | some e => .error e
      | none =>
        match solverPassProbe probe upd rest (k + 1) with
        | .error e => .error e
        | .ok r => .ok (upd s :: r.1, r.2)

/-- Full pass with probe: the serial prev-position backup followed by the
probed per-sphere loop. -/
noncomputable def solverPassWithProbe {E : Type} (probe : Nat → Option E)
    (query : Nat → Vec2R → ℝ → Option (ℝ × Vec2R)) (layer_height : ℝ) (layerZ : Int → ℝ)
    (lin : List Nat) (ss : List CollisionSphereM) (k : Nat) :
    Except E (List CollisionSphereM × Nat) :=
  solverPassProbe probe (updateSphere query layer_height layerZ lin (prevCopy ss)) (prevCopy ss) k

/-- Iteration loop with probe (lines 388-467): a raise in any pass aborts
the loop; otherwise identical to `solverLoop`. -/
noncomputable def solverLoopProbe {E : Type}
    (passP : List CollisionSphereM → Nat → Except E (List CollisionSphereM × Nat))
    (mc : List CollisionSphereM → Nat) :
    Nat → List CollisionSphereM → Nat → Except E (List CollisionSphereM × Nat)
  | 0, ss, k => .ok (ss, k)
  | n+1, ss, k =>
    match passP ss k with
    | .error e => .error e
    | .ok r => if mc r.1 = 0 then .ok r else solverLoopProbe passP mc n r.1 r.2

/-- Position write-back after the loop (lines 469-470):
`result_on_layer = scaled(to_2d(position))` for every element. -/
noncomputable def writeBack (scale : ℝ → Int) (es : List SupportElementS)
    (ss : List CollisionSphereM) : List SupportElementS :=
  es.zipWith (fun e s =>
    { e with result_on_layer := (scale (xyOf s.position).1, scale (xyOf s.position).2) }) ss

/-- `organic_smooth_branches_avoid_collisions` with the cancellation probe
(lines 262-471): build the collision spheres, run the iteration loop, and
write the scaled positions back into the elements only when the loop
completes without a raise.  A raise returns the elements untouched
together with the raised value.  Input: elements paired with their
downward link and collision scan window. -/
noncomputable def organicSmoothRun {E : Type} (probe : Nat → Option E)
    (unscale : Int → ℝ) (scale : ℝ → Int) (layerZ : Int → ℝ)
    (query : Nat → Vec2R → ℝ → Option (ℝ × Vec2R)) (layer_height : ℝ)
    (lin : List Nat) (eps : ℝ)
    (elems : List (SupportElementS × Int × Nat × Nat)) : List SupportElementS × Option E :=
  match solverLoopProbe (solverPassWithProbe probe query layer_height layerZ lin)
      (movedCount eps) num_iter
      (elems.map fun p => mkCollisionSphere unscale layerZ p.1 p.2.1 p.2.2.1 p.2.2.2) 0 with
  | .error e => (elems.map (·.1), some e)
  | .ok r => (writeBack scale (elems.map (·.1)) r.1, none)

/-- Concrete unlocked sphere used by the witnesses. -/
noncomputable def c3sphere : CollisionSphereM :=
  { parents := [0], element_below_id := -1, locked := false, radius := 1, layer_idx := 0,
    position := (3, 4, 0), prev_position := (0, 0, 0), last_collision := (0, 0, 0),
    last_collision_depth := 0.3, layer_begin := 0, layer_end := 0 }

/-! ## Theorems for the sphere solver -/

theorem xyOf_withXY (p : Vec3R) (q : Vec2R) : xyOf (withXY p q) = q := rfl

theorem vnorm_pos_of_ne (v : Vec2R) (h : v ≠ 0) : 0 < vnorm v := by
  unfold vnorm
  apply Real.sqrt_pos.mpr
  have hc : v.1 ≠ 0 ∨ v.2 ≠ 0 := by
    by_contra hcc
    push_neg at hcc
    exact h (Prod.ext hcc.1 hcc.2)
  rcases hc with h1 | h1
  · have := pow_two_pos_of_ne_zero h1
    nlinarith [sq_nonneg v.2]
  · have := pow_two_pos_of_ne_zero h1
    nlinarith [sq_nonneg v.1]

theorem vnorm_smul (c : ℝ) (v : Vec2R) : vnorm (c • v) = |c| * vnorm v := by
  unfold vnorm
  have h1 : (c • v).1 = c * v.1 := rfl
  have h2 : (c • v).2 = c * v.2 := rfl
  rw [h1, h2, mul_pow, mul_pow, ← mul_add, Real.sqrt_mul (sq_nonneg c), Real.sqrt_sq_eq_abs]

theorem vnormalize_eq_inv_smul (v : Vec2R) : vnormalize v = (vnorm v)⁻¹ • v := by
  unfold vnormalize
  have h1 : ((vnorm v)⁻¹ • v).1 = (vnorm v)⁻¹ * v.1 := rfl
  have h2 : ((vnorm v)⁻¹ • v).2 = (vnorm v)⁻¹ * v.2 := rfl
  rw [Prod.ext_iff, h1, h2, div_eq_inv_mul, div_eq_inv_mul]
  exact ⟨rfl, rfl⟩

theorem vnorm_vnormalize (v : Vec2R) (h : v ≠ 0) : vnorm (vnormalize v) = 1 := by
  have hv := vnorm_pos_of_ne v h
  rw [vnormalize_eq_inv_smul, vnorm_smul, abs_inv, abs_of_pos hv,
    inv_mul_cancel₀ (ne_of_gt hv)]

/-- C3: in every solver pass, an unlocked sphere whose computed
`last_collision_depth` is positive has its XY position shifted in the unit
direction from `last_collision` toward `position` by `nudge * nudge`,
where `nudge = min(max(0, last_collision_depth + 0.1), 0.5)` — the
displacement magnitude is the square of the clamped distance (the source
multiplies the already-scaled `nudge_vector` by `nudge_dist` again); the z
coordinate is untouched. -/
theorem c3_collision_nudge_squared (s : CollisionSphereM)
    (h : 0 < s.last_collision_depth)
    (hdir : xyOf s.position - xyOf s.last_collision ≠ 0) :
    xyOf (collisionNudge s).position =
      xyOf s.position + (min (max 0 (s.last_collision_depth + 0.1)) 0.5) ^ 2 •
        vnormalize (xyOf s.position - xyOf s.last_collision) ∧
    vnorm (xyOf (collisionNudge s).position - xyOf s.position) =
      (min (max 0 (s.last_collision_depth + 0.1)) 0.5) ^ 2 ∧
    (collisionNudge s).position.2.2 = s.position.2.2 := by
  have hconst : min (max 0 (s.last_collision_depth + (0.1 : ℝ))) 0.5 =
      min (max 0 (s.last_collision_depth + collision_extra_gap)) max_nudge_collision_avoidance :=
    rfl
  have heq : collisionNudge s = { s with position := withXY s.position (xyOf s.position +
      (min (max 0 (s.last_collision_depth + collision_extra_gap)) max_nudge_collision_avoidance) •
        ((min (max 0 (s.last_collision_depth + collision_extra_gap)) max_nudge_collision_avoidance) •
          vnormalize (xyOf s.position - xyOf s.last_collision))) } := by
    rw [collisionNudge, if_pos h]
  have hxy : xyOf (collisionNudge s).position =
      xyOf s.position + (min (max 0 (s.last_collision_depth + 0.1)) 0.5) ^ 2 •
        vnormalize (xyOf s.position - xyOf s.last_collision) := by
    rw [heq]
    show xyOf (withXY s.position _) = _
    rw [xyOf_withXY, smul_smul, hconst, ← sq]
  refine ⟨hxy, ?_, ?_⟩
  · rw [hxy, add_sub_cancel_left, vnorm_smul, vnorm_vnormalize _ hdir, mul_one,
      abs_of_nonneg (sq_nonneg _)]
  · rw [heq]
    rfl


/-- Witness for C3 at a concrete sphere: depth 0.3 and direction (3, 4). -/
theorem c3_collision_nudge_squared_witness :
    (0 < c3sphere.last_collision_depth ∧
      xyOf c3sphere.position - xyOf c3sphere.last_collision ≠ 0) ∧
    (xyOf (collisionNudge c3sphere).position =
      xyOf c3sphere.position + (min (max 0 (c3sphere.last_collision_depth + 0.1)) 0.5) ^ 2 •
        vnormalize (xyOf c3sphere.position - xyOf c3sphere.last_collision) ∧
    vnorm (xyOf (collisionNudge c3sphere).position - xyOf c3sphere.position) =
      (min (max 0 (c3sphere.last_collision_depth + 0.1)) 0.5) ^ 2 ∧
    (collisionNudge c3sphere).position.2.2 = c3sphere.position.2.2) := by
  have hd : (0 : ℝ) < c3sphere.last_collision_depth := by
    show (0 : ℝ) < 0.3
    norm_num
  have hdir : xyOf c3sphere.position - xyOf c3sphere.last_collision ≠ 0 := by
    show ((3 : ℝ), (4 : ℝ)) - ((0 : ℝ), (0 : ℝ)) ≠ 0
    intro hc
    rw [Prod.ext_iff] at hc
    have h1 : (3 : ℝ) - 0 = 0 := hc.1
    norm_num at h1
  exact ⟨⟨hd, hdir⟩, c3_collision_nudge_squared c3sphere hd hdir⟩

theorem weighted_fold {g : Nat → Vec2R} {r : ℝ} :
    ∀ (ps : List Nat) (a : Vec2R) (w : ℝ),
      ps.foldl (fun aw ip => (aw.1 + r • g ip, aw.2 + r)) (a, w) =
        (a + r • (ps.map g).sum, w + r * ps.length) := by
  intro ps
  induction ps with
  | nil => intro a w; simp
  | cons p t ih =>
    intro a w
    simp only [List.foldl_cons, List.map_cons, List.sum_cons, List.length_cons]
    rw [ih]
    rw [Prod.ext_iff]
    constructor
    · show a + r • g p + r • (t.map g).sum = a + r • (g p + (t.map g).sum)
      rw [smul_add, add_assoc]
    · show w + r + r * (t.length : ℝ) = w + r * ((t.length + 1 : Nat) : ℝ)
      push_cast
      ring

theorem smoothAccum_weight (lin : List Nat) (ss : List CollisionSphereM) (s : CollisionSphereM) :
    (smoothAccum lin ss s).2 =
      if s.element_below_id ≠ -1 then
        s.radius * s.parents.length + s.radius * s.parents.length
      else s.radius * s.parents.length := by
  unfold smoothAccum
  rw [weighted_fold]
  split <;> simp

/-- C10: a sphere that reaches the Laplacian smoothing step is unlocked,
hence its element has at least one parent (parentless spheres are
constructed locked and the pass skips locked spheres), so with a positive
radius the accumulated normalising weight of the smoothing step is
strictly positive and the division `avg /= weight` never divides by
zero. -/
theorem c10_smoothing_weight_positive (unscale : Int → ℝ) (layerZ : Int → ℝ)
    (e : SupportElementS) (link_down : Int) (lb le : Nat)
    (hlock : (mkCollisionSphere unscale layerZ e link_down lb le).locked = false)
    (hr : 0 < unscale e.radius_scaled) :
    e.parents ≠ [] ∧
    ∀ (lin : List Nat) (ss : List CollisionSphereM),
      0 < (smoothAccum lin ss (mkCollisionSphere unscale layerZ e link_down lb le)).2 ∧
      (smoothAccum lin ss (mkCollisionSphere unscale layerZ e link_down lb le)).2 ≠ 0 := by
  have hp : e.parents ≠ [] := by
    intro hc
    rw [mkCollisionSphere] at hlock
    simp [hc] at hlock
  refine ⟨hp, ?_⟩
  intro lin ss
  have hw := smoothAccum_weight lin ss (mkCollisionSphere unscale layerZ e link_down lb le)
  have hrad : (mkCollisionSphere unscale layerZ e link_down lb le).radius =
      unscale e.radius_scaled := rfl
  have hpar : (mkCollisionSphere unscale layerZ e link_down lb le).parents = e.parents := rfl
  rw [hrad, hpar] at hw
  have hn : 0 < (e.parents.length : ℝ) := by
    have hne : e.parents.length ≠ 0 := fun hc => hp (List.eq_nil_of_length_eq_zero hc)
    exact_mod_cast Nat.pos_of_ne_zero hne
  have hprod := mul_pos hr hn
  constructor
  · rw [hw]
    split
    · linarith
    · linarith
  · rw [hw]
    split
    · exact ne_of_gt (by linarith)
    · exact ne_of_gt (by linarith)

/-- Concrete element for the C10 witness: one parent, layer 0, radius 1. -/
def c10elem : SupportElementS := ⟨0, (0, 0), [0], 1⟩

/-- Witness for C10: the concrete sphere built from `c10elem` is unlocked
(it has a parent, no downward link, but sits on layer 0) and has positive
radius, so the theorem applies. -/
theorem c10_smoothing_weight_positive_witness :
    ((mkCollisionSphere (fun z : Int => (z : ℝ)) (fun z : Int => (z : ℝ))
        c10elem (-1) 0 0).locked = false ∧
      0 < (fun z : Int => (z : ℝ)) c10elem.radius_scaled) ∧
    (c10elem.parents ≠ [] ∧
      ∀ (lin : List Nat) (ss : List CollisionSphereM),
        0 < (smoothAccum lin ss (mkCollisionSphere (fun z : Int => (z : ℝ))
            (fun z : Int => (z : ℝ)) c10elem (-1) 0 0)).2 ∧
        (smoothAccum lin ss (mkCollisionSphere (fun z : Int => (z : ℝ))
            (fun z : Int => (z : ℝ)) c10elem (-1) 0 0)).2 ≠ 0) := by
  have h1 : (mkCollisionSphere (fun z : Int => (z : ℝ)) (fun z : Int => (z : ℝ))
      c10elem (-1) 0 0).locked = false := rfl
  have h2 : (0 : ℝ) < (fun z : Int => (z : ℝ)) c10elem.radius_scaled := by
    show (0 : ℝ) < ((1 : Int) : ℝ)
    norm_num
  exact ⟨⟨h1, h2⟩,
    c10_smoothing_weight_positive (fun z : Int => (z : ℝ)) (fun z : Int => (z : ℝ))
      c10elem (-1) 0 0 h1 h2⟩

/-- Average of the smoothing step as the specification words it: each
parent contributes its `prev_position.xy` weighted by the sphere's own
radius, the child (when a downward link exists) contributes weighted by
the accumulated parent weight — so above and below carry equal total
weight — and the weighted sum is divided by the total weight. -/
noncomputable def smoothAvgSpec (lin : List Nat) (ss : List CollisionSphereM)
    (s : CollisionSphereM) : Vec2R :=
  let pw : ℝ := s.radius * s.parents.length
  let psum : Vec2R := s.radius •
    (s.parents.map fun ip =>
      xyOf (ss.getD (lin.getD (s.layer_idx + 1).toNat 0 + ip) default).prev_position).sum
  let total : ℝ := if s.element_below_id ≠ -1 then pw + pw else pw
  let wsum : Vec2R :=
    if s.element_below_id ≠ -1 then
      psum + pw • xyOf (ss.getD (lin.getD (s.layer_idx - 1).toNat 0 +
        s.element_below_id.toNat) default).prev_position
    else psum
  total⁻¹ • wsum

theorem smoothAccum_avg_eq (lin : List Nat) (ss : List CollisionSphereM) (s : CollisionSphereM) :
    (((smoothAccum lin ss s).1).1 / (smoothAccum lin ss s).2,
     ((smoothAccum lin ss s).1).2 / (smoothAccum lin ss s).2) = smoothAvgSpec lin ss s := by
  unfold smoothAccum smoothAvgSpec
  rw [weighted_fold]
  by_cases hb : s.element_below_id ≠ -1
  · simp only [if_pos hb]
    rw [Prod.ext_iff]
    constructor
    · simp only [Prod.fst_add, Prod.smul_fst, Prod.fst_zero, smul_eq_mul, zero_add,
        div_eq_inv_mul]
    · simp only [Prod.snd_add, Prod.smul_snd, Prod.snd_zero, smul_eq_mul, zero_add,
        div_eq_inv_mul]
  · simp only [if_neg hb]
    rw [Prod.ext_iff]
    constructor
    · simp only [Prod.fst_add, Prod.smul_fst, Prod.fst_zero, smul_eq_mul, zero_add,
        div_eq_inv_mul]
    · simp only [Prod.snd_add, Prod.smul_snd, Prod.snd_zero, smul_eq_mul, zero_add,
        div_eq_inv_mul]

/-- C6: for every unlocked sphere the pass body runs collision scan,
collision nudge and Laplacian smoothing in sequence, and the smoothing
moves the (post-nudge) XY position from its current value toward the blend
`(1 − 0.5)·position + 0.5·avg` along the normalised shift by
`min(max(0, |shift|), 0.2)`, where `avg` is the weighted prev-position
average with parent weight equal to the sphere's own radius and child
weight equal to the accumulated parent weight, divided by the total
weight. -/
theorem c6_laplacian_smoothing (query : Nat → Vec2R → ℝ → Option (ℝ × Vec2R))
    (layer_height : ℝ) (layerZ : Int → ℝ) (lin : List Nat) (ss : List CollisionSphereM)
    (s : CollisionSphereM) (h : s.locked = false) :
    updateSphere query layer_height layerZ lin ss s =
      smoothSphere lin ss (collisionNudge (collisionScan query layer_height layerZ s)) ∧
    (∀ t : CollisionSphereM,
      xyOf (smoothSphere lin ss t).position =
        xyOf t.position +
          (min (max 0 (vnorm (((1 : ℝ) - 0.5) • xyOf t.position + (0.5 : ℝ) • smoothAvgSpec lin ss t -
              xyOf t.position))) 0.2) •
            vnormalize (((1 : ℝ) - 0.5) • xyOf t.position + (0.5 : ℝ) • smoothAvgSpec lin ss t -
              xyOf t.position)) := by
  constructor
  · rw [updateSphere, if_neg (by rw [h]; exact Bool.false_ne_true)]
  · intro t
    have hsf : smoothing_factor = (0.5 : ℝ) := rfl
    have hmax : max_nudge_smoothing = (0.2 : ℝ) := rfl
    simp only [smoothSphere, xyOf_withXY]
    rw [smoothAccum_avg_eq, hsf, hmax]

/-- Witness for C6: the unlocked concrete sphere `c3sphere`. -/
theorem c6_laplacian_smoothing_witness :
    c3sphere.locked = false ∧
    (updateSphere (fun _ _ _ => none) 0 (fun _ => (0 : ℝ)) [] [] c3sphere =
      smoothSphere [] []
        (collisionNudge (collisionScan (fun _ _ _ => none) 0 (fun _ => (0 : ℝ)) c3sphere)) ∧
    (∀ t : CollisionSphereM,
      xyOf (smoothSphere [] [] t).position =
        xyOf t.position +
          (min (max 0 (vnorm (((1 : ℝ) - 0.5) • xyOf t.position + (0.5 : ℝ) • smoothAvgSpec [] [] t -
              xyOf t.position))) 0.2) •
            vnormalize (((1 : ℝ) - 0.5) • xyOf t.position + (0.5 : ℝ) • smoothAvgSpec [] [] t -
              xyOf t.position))) :=
  ⟨rfl, c6_laplacian_smoothing (fun _ _ _ => none) 0 (fun _ => (0 : ℝ)) [] [] c3sphere rfl⟩

theorem smoothSphere_locked (lin : List Nat) (ss : List CollisionSphereM)
    (t : CollisionSphereM) : (smoothSphere lin ss t).locked = t.locked := rfl

theorem collisionNudge_locked (t : CollisionSphereM) :
    (collisionNudge t).locked = t.locked := by
  unfold collisionNudge
  split <;> rfl

theorem collisionScan_locked (query : Nat → Vec2R → ℝ → Option (ℝ × Vec2R))
    (layer_height : ℝ) (layerZ : Int → ℝ) (s : CollisionSphereM) :
    (collisionScan query layer_height layerZ s).locked = s.locked := rfl

theorem updateSphere_locked (query : Nat → Vec2R → ℝ → Option (ℝ × Vec2R))
    (layer_height : ℝ) (layerZ : Int → ℝ) (lin : List Nat)
    (ss : List CollisionSphereM) (s : CollisionSphereM) :
    (updateSphere query layer_height layerZ lin ss s).locked = s.locked := by
  unfold updateSphere
  split
  · rfl
  · rw [smoothSphere_locked, collisionNudge_locked, collisionScan_locked]

theorem solverPass_get? (query : Nat → Vec2R → ℝ → Option (ℝ × Vec2R))
    (layer_height : ℝ) (layerZ : Int → ℝ) (lin : List Nat)
    (ss : List CollisionSphereM) (i : Nat) (s : CollisionSphereM)
    (h : ss.get? i = some s) :
    (solverPass query layer_height layerZ lin ss).get? i =
      some (updateSphere query layer_height layerZ lin (prevCopy ss)
        { s with prev_position := s.position }) := by
  unfold solverPass prevCopy
  rw [List.get?_map, List.get?_map, h]
  rfl

theorem solverPass_locked_step (query : Nat → Vec2R → ℝ → Option (ℝ × Vec2R))
    (layer_height : ℝ) (layerZ : Int → ℝ) (lin : List Nat)
    (ss : List CollisionSphereM) (i : Nat) (s : CollisionSphereM)
    (h : ss.get? i = some s) (hl : s.locked = true) :
    ∃ s', (solverPass query layer_height layerZ lin ss).get? i = some s' ∧
      s'.locked = true ∧ s'.position = s.position := by
  rw [solverPass_get? query layer_height layerZ lin ss i s h]
  refine ⟨_, rfl, ?_, ?_⟩
  · rw [updateSphere_locked]
    exact hl
  · rw [updateSphere]
    split
    · rfl
    next hc => exact absurd hl hc

theorem solverLoop_locked (pass : List CollisionSphereM → List CollisionSphereM)
    (mc : List CollisionSphereM → Nat)
    (hpass : ∀ ss i s, ss.get? i = some s → s.locked = true →
      ∃ s', (pass ss).get? i = some s' ∧ s'.locked = true ∧ s'.position = s.position) :
    ∀ (n : Nat) (ss : List CollisionSphereM) (i : Nat) (s : CollisionSphereM),
      ss.get? i = some s → s.locked = true →
      ∃ s', ((solverLoop pass mc n ss).1).get? i = some s' ∧ s'.locked = true ∧
        s'.position = s.position := by
  intro n
  induction n with
  | zero =>
    intro ss i s h hl
    exact ⟨s, by simpa [solverLoop] using h, hl, rfl⟩
  | succ m ih =>
    intro ss i s h hl
    rw [solverLoop]
    obtain ⟨s1, h1, hl1, hp1⟩ := hpass ss i s h hl
    split
    · exact ⟨s1, by simpa using h1, hl1, hp1⟩
    · obtain ⟨s2, h2, hl2, hp2⟩ := ih (pass ss) i s1 h1 hl1
      exact ⟨s2, by simpa using h2, hl2, hp2.trans hp1⟩

/-- C5: a sphere is locked iff its element has no parents, or it has no
downward child link and its layer index is positive (lines 336-347); and a
locked sphere's position is exactly identical before and after any number
of solver passes — the pass skips locked spheres and only the serial
prev-position backup touches them. -/
theorem c5_locked_formula_and_invariance (unscale : Int → ℝ) (layerZ : Int → ℝ)
    (e : SupportElementS) (link_down : Int) (lb le : Nat)
    (query : Nat → Vec2R → ℝ → Option (ℝ × Vec2R)) (layer_height : ℝ)
    (layerZsolve : Int → ℝ) (lin : List Nat) (eps : ℝ) (n : Nat)
    (ss : List CollisionSphereM) (i : Nat) (s : CollisionSphereM) :
    ((mkCollisionSphere unscale layerZ e link_down lb le).locked = true ↔
      (e.parents = [] ∨ (link_down = -1 ∧ 0 < e.layer_idx))) ∧
    (ss.get? i = some s → s.locked = true →
      ∃ s', ((solverLoop (solverPass query layer_height layerZsolve lin)
          (movedCount eps) n ss).1).get? i = some s' ∧
        s'.locked = true ∧ s'.position = s.position) := by
  constructor
  · show (e.parents.isEmpty || (link_down == -1 && decide (0 < e.layer_idx))) = true ↔ _
    simp [List.isEmpty_iff, Bool.or_eq_true, Bool.and_eq_true, decide_eq_true_eq]
  · intro h hl
    exact solverLoop_locked (solverPass query layer_height layerZsolve lin) (movedCount eps)
      (fun ss2 i2 s2 h2 hl2 =>
        solverPass_locked_step query layer_height layerZsolve lin ss2 i2 s2 h2 hl2)
      n ss i s h hl

/-- Concrete parentless (tip) element for the C5 witness. -/
def c5elem : SupportElementS := ⟨1, (0, 0), [], 1⟩

/-- Witness for C5: the sphere built from the parentless `c5elem` is
locked, and the loop leaves its position untouched. -/
theorem c5_locked_formula_and_invariance_witness :
    ([mkCollisionSphere (fun z : Int => (z : ℝ)) (fun z : Int => (z : ℝ)) c5elem 0 0 0].get? 0 =
        some (mkCollisionSphere (fun z : Int => (z : ℝ)) (fun z : Int => (z : ℝ)) c5elem 0 0 0) ∧
      (mkCollisionSphere (fun z : Int => (z : ℝ)) (fun z : Int => (z : ℝ)) c5elem 0 0 0).locked = true) ∧
    ((mkCollisionSphere (fun z : Int => (z : ℝ)) (fun z : Int => (z : ℝ)) c5elem 0 0 0).locked = true ↔
      (c5elem.parents = [] ∨ ((0 : Int) = -1 ∧ 0 < c5elem.layer_idx))) ∧
    ∃ s', ((solverLoop (solverPass (fun _ _ _ => none) 0 (fun _ => (0 : ℝ)) [])
        (movedCount 0) 3
        [mkCollisionSphere (fun z : Int => (z : ℝ)) (fun z : Int => (z : ℝ)) c5elem 0 0 0]).1).get? 0 =
      some s' ∧ s'.locked = true ∧
      s'.position = (mkCollisionSphere (fun z : Int => (z : ℝ)) (fun z : Int => (z : ℝ))
        c5elem 0 0 0).position := by
  have h := c5_locked_formula_and_invariance (fun z : Int => (z : ℝ)) (fun z : Int => (z : ℝ))
    c5elem 0 0 0 (fun _ _ _ => none) 0 (fun _ => (0 : ℝ)) [] 0 3
    [mkCollisionSphere (fun z : Int => (z : ℝ)) (fun z : Int => (z : ℝ)) c5elem 0 0 0] 0
    (mkCollisionSphere (fun z : Int => (z : ℝ)) (fun z : Int => (z : ℝ)) c5elem 0 0 0)
  exact ⟨⟨rfl, rfl⟩, h.1, h.2 rfl rfl⟩

theorem solverLoop_iterate (pass : List CollisionSphereM → List CollisionSphereM)
    (mc : List CollisionSphereM → Nat) :
    ∀ (n : Nat) (ss : List CollisionSphereM),
      (solverLoop pass mc n ss).1 = pass^[(solverLoop pass mc n ss).2] ss := by
  intro n
  induction n with
  | zero => intro ss; simp [solverLoop]
  | succ m ih =>
    intro ss
    rw [solverLoop]
    split
    · simp
    · simp only []
      rw [ih (pass ss), Function.iterate_succ_apply]

theorem solverLoop_le (pass : List CollisionSphereM → List CollisionSphereM)
    (mc : List CollisionSphereM → Nat) :
    ∀ (n : Nat) (ss : List CollisionSphereM), (solverLoop pass mc n ss).2 ≤ n := by
  intro n
  induction n with
  | zero => intro ss; simp [solverLoop]
  | succ m ih =>
    intro ss
    rw [solverLoop]
    split
    · simp
    · simpa using ih (pass ss)

theorem solverLoop_pos (pass : List CollisionSphereM → List CollisionSphereM)
    (mc : List CollisionSphereM → Nat) :
    ∀ (n : Nat) (ss : List CollisionSphereM), 0 < n → 1 ≤ (solverLoop pass mc n ss).2 := by
  intro n
  cases n with
  | zero => intro ss h; omega
  | succ m =>
    intro ss _
    rw [solverLoop]
    split
    · simp
    · simp

theorem solverLoop_early (pass : List CollisionSphereM → List CollisionSphereM)
    (mc : List CollisionSphereM → Nat) :
    ∀ (n : Nat) (ss : List CollisionSphereM),
      (solverLoop pass mc n ss).2 < n → mc ((solverLoop pass mc n ss).1) = 0 := by
  intro n
  induction n with
  | zero => intro ss h; omega
  | succ m ih =>
    intro ss h
    rw [solverLoop] at h ⊢
    by_cases hc : mc (pass ss) = 0
    · rw [if_pos hc]
      simpa using hc
    · rw [if_neg hc] at h ⊢
      have h2 : (solverLoop pass mc m (pass ss)).2 < m := by
        simp only [] at h
        omega
      simpa using ih (pass ss) h2

theorem solverLoop_final (pass : List CollisionSphereM → List CollisionSphereM)
    (mc : List CollisionSphereM → Nat) :
    ∀ (n : Nat) (ss : List CollisionSphereM),
      mc ((solverLoop pass mc n ss).1) = 0 ∨ (solverLoop pass mc n ss).2 = n := by
  intro n
  induction n with
  | zero => intro ss; right; simp [solverLoop]
  | succ m ih =>
    intro ss
    rw [solverLoop]
    split
    · left
      simpa using (by assumption : mc (pass ss) = 0)
    · rcases ih (pass ss) with h | h
      · left; simpa using h
      · right; simpa using h

theorem solverLoop_stops (pass : List CollisionSphereM → List CollisionSphereM)
    (mc : List CollisionSphereM → Nat) :
    ∀ (n : Nat) (ss : List CollisionSphereM) (j : Nat), 1 ≤ j → mc (pass^[j] ss) = 0 →
      (solverLoop pass mc n ss).2 ≤ j := by
  intro n
  induction n with
  | zero => intro ss j _ _; simp [solverLoop]
  | succ m ih =>
    intro ss j hj hmc
    rw [solverLoop]
    split
    · simpa using hj
    next hne =>
      rcases Nat.lt_or_ge 1 j with hj2 | hj2
      · have hj1 : j - 1 + 1 = j := by omega
        have hiter : pass^[j] ss = pass^[j - 1] (pass ss) := by
          rw [← hj1, Function.iterate_succ_apply, hj1]
        have := ih (pass ss) (j - 1) (by omega) (by rw [← hiter]; exact hmc)
        simp only []
        omega
      · exfalso
        have hj1 : j = 1 := by omega
        rw [hj1] at hmc
        simp [Function.iterate_one] at hmc
        exact hne hmc

/-- C4: the solver executes at most `num_iter = 100` passes and at least
one; the final state is the pass iterated as many times as passes were
run; early exit happens exactly when a pass ends with `num_moved = 0`
(formally: if fewer than 100 passes ran then the final count is 0, the
loop would have stopped at any earlier pass with count 0, and after
termination the count is 0 or exactly 100 passes ran); finally, under
`0 ≤ ε` and locked spheres starting at depth ≤ ε (they are constructed
with depth 0), the pass counter `num_moved` equals the number of spheres
with `last_collision_depth > ε`. -/
theorem solverPass_locked_depth (query : Nat → Vec2R → ℝ → Option (ℝ × Vec2R))
    (layer_height : ℝ) (layerZ : Int → ℝ) (lin : List Nat) (eps : ℝ)
    (ss : List CollisionSphereM)
    (h : ∀ s ∈ ss, s.locked = true → s.last_collision_depth ≤ eps) :
    ∀ s' ∈ solverPass query layer_height layerZ lin ss, s'.locked = true →
      s'.last_collision_depth ≤ eps := by
  intro s' hs' hl
  unfold solverPass at hs'
  rcases List.mem_map.mp hs' with ⟨s1, hs1, rfl⟩
  unfold prevCopy at hs1
  rcases List.mem_map.mp hs1 with ⟨s0, hs0, rfl⟩
  rw [updateSphere_locked] at hl
  have hl0 : s0.locked = true := hl
  rw [updateSphere]
  split
  · exact h s0 hs0 hl0
  next hc => exact absurd hl hc

theorem iterate_locked_depth (query : Nat → Vec2R → ℝ → Option (ℝ × Vec2R))
    (layer_height : ℝ) (layerZ : Int → ℝ) (lin : List Nat) (eps : ℝ) :
    ∀ (k : Nat) (ss : List CollisionSphereM),
      (∀ s ∈ ss, s.locked = true → s.last_collision_depth ≤ eps) →
      ∀ s' ∈ (solverPass query layer_height layerZ lin)^[k] ss, s'.locked = true →
        s'.last_collision_depth ≤ eps := by
  intro k
  induction k with
  | zero => intro ss h; simpa using h
  | succ m ih =>
    intro ss h
    rw [Function.iterate_succ_apply]
    exact ih _ (solverPass_locked_depth query layer_height layerZ lin eps ss h)

theorem countP_pointwise {α : Type} (p q : α → Bool) :
    ∀ l : List α, (∀ a ∈ l, p a = q a) → l.countP p = l.countP q := by
  intro l
  induction l with
  | nil => intro h; rfl
  | cons a t ih =>
    intro h
    rw [List.countP_cons, List.countP_cons, h a (List.mem_cons_self a t),
      ih (fun b hb => h b (List.mem_cons_of_mem a hb))]

theorem movedCount_eq_depth_count (eps : ℝ) (heps : 0 ≤ eps)
    (ss : List CollisionSphereM)
    (h : ∀ s ∈ ss, s.locked = true → s.last_collision_depth ≤ eps) :
    movedCount eps ss = ss.countP (fun s => decide (eps < s.last_collision_depth)) := by
  unfold movedCount
  apply countP_pointwise
  intro s hs
  by_cases hl : s.locked = true
  · have hd := h s hs hl
    simp [hl, not_lt.mpr hd]
  · have hb : s.locked = false := by
      revert hl; cases s.locked <;> simp
    by_cases hd : eps < s.last_collision_depth
    · have h0 : 0 < s.last_collision_depth := lt_of_le_of_lt heps hd
      simp [hb, hd, h0]
    · simp [hb, hd]

theorem c4_solver_iterations (query : Nat → Vec2R → ℝ → Option (ℝ × Vec2R))
    (layer_height : ℝ) (layerZ : Int → ℝ) (lin : List Nat) (eps : ℝ)
    (ss : List CollisionSphereM) :
    (organicSolver query layer_height layerZ lin eps ss).2 ≤ num_iter ∧
    1 ≤ (organicSolver query layer_height layerZ lin eps ss).2 ∧
    (organicSolver query layer_height layerZ lin eps ss).1 =
      (solverPass query layer_height layerZ lin)^[(organicSolver query layer_height layerZ lin eps ss).2] ss ∧
    ((organicSolver query layer_height layerZ lin eps ss).2 < num_iter →
      movedCount eps (organicSolver query layer_height layerZ lin eps ss).1 = 0) ∧
    (movedCount eps (organicSolver query layer_height layerZ lin eps ss).1 = 0 ∨
      (organicSolver query layer_height layerZ lin eps ss).2 = num_iter) ∧
    (∀ j, 1 ≤ j → movedCount eps ((solverPass query layer_height layerZ lin)^[j] ss) = 0 →
      (organicSolver query layer_height layerZ lin eps ss).2 ≤ j) ∧
    (0 ≤ eps → (∀ s ∈ ss, s.locked = true → s.last_collision_depth ≤ eps) →
      movedCount eps (organicSolver query layer_height layerZ lin eps ss).1 =
        ((organicSolver query layer_height layerZ lin eps ss).1).countP
          (fun s => decide (eps < s.last_collision_depth))) := by
  unfold organicSolver
  refine ⟨solverLoop_le _ _ _ _, solverLoop_pos _ _ _ _ (by norm_num [num_iter]),
    solverLoop_iterate _ _ _ _, solverLoop_early _ _ _ _, solverLoop_final _ _ _ _,
    fun j hj hmc => solverLoop_stops _ _ _ _ j hj hmc, ?_⟩
  intro heps hloc
  rw [solverLoop_iterate]
  exact movedCount_eq_depth_count eps heps _
    (iterate_locked_depth query layer_height layerZ lin eps _ ss hloc)

theorem organicSolver_nil (query : Nat → Vec2R → ℝ → Option (ℝ × Vec2R))
    (layer_height : ℝ) (layerZ : Int → ℝ) (lin : List Nat) (eps : ℝ) :
    organicSolver query layer_height layerZ lin eps [] = ([], 1) := by
  unfold organicSolver
  show solverLoop _ _ (99 + 1) [] = ([], 1)
  rw [solverLoop]
  have hpass : solverPass query layer_height layerZ lin [] = [] := rfl
  rw [hpass]
  simp [movedCount]

/-- Witness for C4 at the empty sphere system: one pass runs, exits early,
and the final moved count is zero. -/
theorem c4_solver_iterations_witness :
    (organicSolver (fun _ _ _ => none) 0 (fun _ => (0 : ℝ)) [] 0 []).2 ≤ num_iter ∧
    movedCount 0 (organicSolver (fun _ _ _ => none) 0 (fun _ => (0 : ℝ)) [] 0 []).1 = 0 ∧
    (organicSolver (fun _ _ _ => none) 0 (fun _ => (0 : ℝ)) [] 0 []).2 ≤ 1 ∧
    movedCount 0 (organicSolver (fun _ _ _ => none) 0 (fun _ => (0 : ℝ)) [] 0 []).1 =
      ((organicSolver (fun _ _ _ => none) 0 (fun _ => (0 : ℝ)) [] 0 []).1).countP
        (fun s => decide ((0 : ℝ) < s.last_collision_depth)) := by
  have h := c4_solver_iterations (fun _ _ _ => none) 0 (fun _ => (0 : ℝ)) [] 0 []
  have hnil := organicSolver_nil (fun _ _ _ => none) 0 (fun _ => (0 : ℝ)) [] 0
  refine ⟨h.1, ?_, ?_, ?_⟩
  · refine h.2.2.2.1 ?_
    rw [hnil]
    norm_num [num_iter]
  · refine h.2.2.2.2.2.1 1 (le_refl 1) ?_
    show movedCount 0 ((solverPass (fun _ _ _ => none) 0 (fun _ => (0 : ℝ)) [])^[1] []) = 0
    rw [Function.iterate_one]
    rfl
  · exact h.2.2.2.2.2.2 (le_refl 0) (by simp)

theorem solverPassProbe_error {E : Type} (probe : Nat → Option E)
    (upd : CollisionSphereM → CollisionSphereM) :
    ∀ (ss : List CollisionSphereM) (k : Nat) (e : E),
      solverPassProbe probe upd ss k = .error e → ∃ j, probe j = some e := by
  intro ss
  induction ss with
  | nil => intro k e h; simp [solverPassProbe] at h
  | cons s rest ih =>
    intro k e h
    rw [solverPassProbe] at h
    split at h
    · cases hrec : solverPassProbe probe upd rest k with
      | error e' =>
        rw [hrec] at h
        simp only [] at h
        cases h
        exact ih k e hrec
      | ok r =>
        rw [hrec] at h
        simp at h
    · cases hp : probe k with
      | some e' =>
        rw [hp] at h
        simp only [] at h
        cases h
        exact ⟨k, hp⟩
      | none =>
        rw [hp] at h
        cases hrec : solverPassProbe probe upd rest (k + 1) with
        | error e' =>
          rw [hrec] at h
          simp only [] at h
          cases h
          exact ih (k + 1) e hrec
        | ok r =>
          rw [hrec] at h
          simp at h

theorem solverLoopProbe_error {E : Type}
    (passP : List CollisionSphereM → Nat → Except E (List CollisionSphereM × Nat))
    (mc : List CollisionSphereM → Nat) (P : E → Prop)
    (hpass : ∀ ss k e, passP ss k = .error e → P e) :
    ∀ (n : Nat) (ss : List CollisionSphereM) (k : Nat) (e : E),
      solverLoopProbe passP mc n ss k = .error e → P e := by
  intro n
  induction n with
  | zero => intro ss k e h; simp [solverLoopProbe] at h
  | succ m ih =>
    intro ss k e h
    rw [solverLoopProbe] at h
    cases hp : passP ss k with
    | error e' =>
      rw [hp] at h
      simp only [] at h
      cases h
      exact hpass ss k e hp
    | ok r =>
      rw [hp] at h
      simp only [] at h
      split at h
      · simp at h
      · exact ih r.1 r.2 e h

/-- C8: `organic_smooth_branches_avoid_collisions` either completes every
iteration without a raise — and only then writes the scaled solver
positions back into the elements — or a raise of the injected cancellation
probe aborts the run, the raised value is propagated to the caller
verbatim (it is the value some probe call raised), and no element is
modified: the function returns the input elements untouched. -/
theorem c8_cancellation_propagation {E : Type} (probe : Nat → Option E)
    (unscale : Int → ℝ) (scale : ℝ → Int) (layerZ : Int → ℝ)
    (query : Nat → Vec2R → ℝ → Option (ℝ × Vec2R)) (layer_height : ℝ)
    (lin : List Nat) (eps : ℝ) (elems : List (SupportElementS × Int × Nat × Nat)) :
    (∃ r, solverLoopProbe (solverPassWithProbe probe query layer_height layerZ lin)
        (movedCount eps) num_iter
        (elems.map fun p => mkCollisionSphere unscale layerZ p.1 p.2.1 p.2.2.1 p.2.2.2) 0 =
          .ok r ∧
      organicSmoothRun probe unscale scale layerZ query layer_height lin eps elems =
        (writeBack scale (elems.map (·.1)) r.1, none)) ∨
    (∃ e, organicSmoothRun probe unscale scale layerZ query layer_height lin eps elems =
        (elems.map (·.1), some e) ∧ ∃ j, probe j = some e) := by
  cases hloop : solverLoopProbe (solverPassWithProbe probe query layer_height layerZ lin)
      (movedCount eps) num_iter
      (elems.map fun p => mkCollisionSphere unscale layerZ p.1 p.2.1 p.2.2.1 p.2.2.2) 0 with
  | ok r =>
    left
    refine ⟨r, rfl, ?_⟩
    unfold organicSmoothRun
    rw [hloop]
  | error e =>
    right
    refine ⟨e, ?_, ?_⟩
    · unfold organicSmoothRun
      rw [hloop]
    · exact solverLoopProbe_error (solverPassWithProbe probe query layer_height layerZ lin)
        (movedCount eps) (fun e' => ∃ j, probe j = some e')
        (fun ss k e' hp => solverPassProbe_error probe _ (prevCopy ss) k e' hp)
        num_iter _ 0 e hloop
